import Mathlib

/-!
# dbclib: signal values, channel / engineering reads, bit codec and multiplexing

A shallow embedding of `include/dbc/signal.h` (the `SignalValue`, `ExtendedMux` and
`Signal` data model and the two inline templates `Signal::ChannelValue<T>` and
`Signal::EngValue<T>`) and of the operations declared in `src/dbchelper.h`.

Machine integers are `Int` / `Nat` with explicit reduction modulo `2^w`.  The C++ `double`
is a primitive of the language, not of the program: its operations are collected in the
record `FloatOps`, every definition takes them as a parameter, and `ieee` is a computable
binary64 instance used to evaluate the definitions on concrete inputs.
-/

namespace dbc

/-! ## Floating point primitives -/

/-- The primitive operations on `double` that `signal.h` uses.  `F` is the set of `double`
values; a `float` is held as the `double` of the same value. -/
structure FloatOps (F : Type) where
  /-- The value-initialised `double` (`double{}`, the literal `0`). -/
  zero : F
  /-- The literal `1.0`. -/
  one : F
  /-- The comparison `operator==` on `double`. -/
  eq : F → F → Bool
  /-- The product `a * b` (`temp *= scale_`). -/
  mul : F → F → F
  /-- The sum `a + b` (`temp += offset_`). -/
  add : F → F → F
  /-- The conversion `static_cast<double>(i)` of a 64-bit integer. -/
  ofInt : Int → F
  /-- The conversion `static_cast<float>(i)` of a 64-bit integer. -/
  ofIntSingle : Int → F
  /-- The conversion `static_cast<float>(d)` of a `double`. -/
  toSingle : F → F
  /-- The conversion `static_cast<T>(d)` of a `double` to the integer type of the given
  signedness and width. -/
  toInt : Bool → Nat → F → Int
  /-- The `float` with the given 32-bit pattern. -/
  ofBits32 : Nat → F
  /-- The `double` with the given 64-bit pattern. -/
  ofBits64 : Nat → F

/-! ## Data model (`signal.h`) -/

/-- The struct `SignalValue`. -/
structure SignalValue (F : Type) where
  valid : Bool
  signed_value : Int
  unsigned_value : Nat
  float_value : F
  array_value : List Nat

/-- The member initialisers of `SignalValue` (a default-constructed value). -/
def SignalValue.init {F : Type} (ops : FloatOps F) : SignalValue F :=
  { valid := false, signed_value := 0, unsigned_value := 0, float_value := ops.zero,
    array_value := [] }

/-- The method `SignalValue::Clear`. -/
def SignalValue.Clear {F : Type} (ops : FloatOps F) (_v : SignalValue F) : SignalValue F :=
  { valid := false, signed_value := 0, unsigned_value := 0, float_value := ops.zero,
    array_value := [] }

/-- The enumeration `SignalDataType`. -/
inductive SignalDataType where
  | SignedData
  | UnsignedData
  | FloatData
  | DoubleData
  deriving DecidableEq, Repr

/-- The enumeration `MuxType`. -/
inductive MuxType where
  | NotMultiplexed
  | Multiplexor
  | Multiplexed
  | ExtendedMultiplexor
  deriving DecidableEq, Repr

/-- The struct `ExtendedMux`; `RangePair` is `std::pair<size_t, size_t>`. -/
structure ExtendedMux where
  multiplexor : String
  range_list : List (Nat × Nat)

/-- The private data members of the class `Signal` (attributes and receivers, which no
operation below reads, are left out). -/
structure Signal (F : Type) where
  name_ : String
  mux_type_ : MuxType
  mux_value_ : Int
  bit_start_ : Nat
  bit_length_ : Nat
  little_endian_ : Bool
  data_type_ : SignalDataType
  scale_ : F
  offset_ : F
  min_ : F
  max_ : F
  extended_mux_ : ExtendedMux
  enum_list_ : List (Int × String)
  channel_value_ : SignalValue F
  message_id_ : Nat
  sample_counter_ : Nat
  valid_ : Bool
  sample_time_ : Nat
  sample_can_id_ : Nat
  observer_list_ : List Nat

/-- The ranges of the integer fields of a `SignalValue`: `signed_value` is an `int64_t`,
`unsigned_value` a `uint64_t`. -/
def SignalValue.InRange {F : Type} (v : SignalValue F) : Prop :=
  -(2 : Int) ^ 63 ≤ v.signed_value ∧ v.signed_value < (2 : Int) ^ 63 ∧
    v.unsigned_value < 2 ^ 64

/-- The member initialisers of `Signal` (a default-constructed signal). -/
def Signal.init {F : Type} (ops : FloatOps F) : Signal F :=
  { name_ := "", mux_type_ := MuxType.NotMultiplexed, mux_value_ := 0, bit_start_ := 0,
    bit_length_ := 0, little_endian_ := true, data_type_ := SignalDataType.SignedData,
    scale_ := ops.one, offset_ := ops.zero, min_ := ops.zero, max_ := ops.zero,
    extended_mux_ := { multiplexor := "", range_list := [] }, enum_list_ := [],
    channel_value_ := SignalValue.init ops, message_id_ := 0, sample_counter_ := 0,
    valid_ := true, sample_time_ := 0, sample_can_id_ := 0, observer_list_ := [] }

/-- The accessor `Signal::Valid() const`. -/
def Signal.Valid {F : Type} (s : Signal F) : Bool := s.valid_

/-- The accessor `Signal::SampleCounter`. -/
def Signal.SampleCounter {F : Type} (s : Signal F) : Nat := s.sample_counter_

/-- The accessor `Signal::Mux() const`. -/
def Signal.Mux {F : Type} (s : Signal F) : MuxType := s.mux_type_

/-- The accessor `Signal::MuxValue() const`. -/
def Signal.MuxValue {F : Type} (s : Signal F) : Int := s.mux_value_

/-! ## Target types of the templates -/

/-- The arithmetic types a reader can request: signed and unsigned integers of a given
width, `float` and `double`. -/
inductive NumType where
  | sint (w : Nat)
  | uint (w : Nat)
  | float
  | double
  deriving DecidableEq, Repr

/-- An output value of a read: an integer (for the integer types) or a floating point
value (for `float` and `double`). -/
inductive Value (F : Type) where
  | int (v : Int)
  | flt (v : F)
  deriving DecidableEq, Repr

/-- Reduction of an integer to the unsigned `w`-bit range. -/
def wrapU (w : Nat) (x : Int) : Int := x % (2 : Int) ^ w

/-- Reduction of an integer to the two's complement `w`-bit range. -/
def wrapS (w : Nat) (x : Int) : Int :=
  if x % (2 : Int) ^ w < (2 : Int) ^ (w - 1) then x % (2 : Int) ^ w
  else x % (2 : Int) ^ w - (2 : Int) ^ w

/-- The value-initialised `T` (`value = {}`). -/
def zeroOf {F : Type} (ops : FloatOps F) : NumType → Value F
  | NumType.sint _ => Value.int 0
  | NumType.uint _ => Value.int 0
  | NumType.float => Value.flt ops.zero
  | NumType.double => Value.flt ops.zero

/-- The conversion `static_cast<T>(i)` of a 64-bit integer. -/
def castInt {F : Type} (ops : FloatOps F) : NumType → Int → Value F
  | NumType.sint w, i => Value.int (wrapS w i)
  | NumType.uint w, i => Value.int (wrapU w i)
  | NumType.float, i => Value.flt (ops.ofIntSingle i)
  | NumType.double, i => Value.flt (ops.ofInt i)

/-- The conversion `static_cast<T>(d)` of a `double` (or of a `float`, which has the same
value as its `double`). -/
def castFloat {F : Type} (ops : FloatOps F) : NumType → F → Value F
  | NumType.sint w, d => Value.int (ops.toInt true w d)
  | NumType.uint w, d => Value.int (ops.toInt false w d)
  | NumType.float, d => Value.flt (ops.toSingle d)
  | NumType.double, d => Value.flt d

/-- The conversion `static_cast<T>(v)` of a value of either kind. -/
def castValue {F : Type} (ops : FloatOps F) (T : NumType) : Value F → Value F
  | Value.int i => castInt ops T i
  | Value.flt d => castFloat ops T d

/-- The conversion `static_cast<double>(v)` as a `double`. -/
def toDouble {F : Type} (ops : FloatOps F) : Value F → F
  | Value.int i => ops.ofInt i
  | Value.flt d => d

/-! ## `Signal::ChannelValue<T>` and `Signal::EngValue<T>` -/

/-- The template `Signal::ChannelValue<T>`: the returned flag and the value left in the
output parameter.  The `catch` handlers are never entered, a `static_cast` does not
throw. -/
def ChannelValue {F : Type} (ops : FloatOps F) (T : NumType) (s : Signal F) :
    Bool × Value F :=
  let valid := s.channel_value_.valid && s.Valid
  let value := zeroOf ops T
  match s.data_type_ with
  | SignalDataType.SignedData =>
    let temp := s.channel_value_.signed_value
    (valid, castInt ops T temp)
  | SignalDataType.UnsignedData =>
    let bytes := s.bit_length_ / 8
    let bytes := if s.bit_length_ % 8 ≠ 0 then bytes + 1 else bytes
    if bytes > 8 then (false, value)
    else
      let temp := s.channel_value_.unsigned_value
      (valid, castInt ops T (Int.ofNat temp))
  | SignalDataType.DoubleData =>
    let temp := s.channel_value_.float_value
    (valid, castFloat ops T temp)
  | SignalDataType.FloatData =>
    let temp := s.channel_value_.float_value
    (valid, castFloat ops T temp)

/-- The local `need_to_convert` of `Signal::EngValue<T>`. -/
def needToConvert {F : Type} (ops : FloatOps F) (s : Signal F) : Bool :=
  let need_to_convert := true
  let need_to_convert := if !s.enum_list_.isEmpty then false else need_to_convert
  let need_to_convert :=
    if ops.eq s.scale_ ops.one && ops.eq s.offset_ ops.zero then false else need_to_convert
  need_to_convert

/-- The type of the local `channel` in `Signal::EngValue<T>`. -/
def nativeType : SignalDataType → NumType
  | SignalDataType.SignedData => NumType.sint 64
  | SignalDataType.UnsignedData => NumType.uint 64
  | SignalDataType.FloatData => NumType.float
  | SignalDataType.DoubleData => NumType.double

/-- The template `Signal::EngValue<T>`: the returned flag and the value left in the output
parameter.  Each `case` reads the channel value in the type of its local `channel` and
either scales it in `double` or casts it. -/
def EngValue {F : Type} (ops : FloatOps F) (T : NumType) (s : Signal F) : Bool × Value F :=
  let need_to_convert := needToConvert ops s
  let convert (channel : Bool × Value F) : Bool × Value F :=
    if need_to_convert then
      let temp := toDouble ops channel.2
      let temp := ops.mul temp s.scale_
      let temp := ops.add temp s.offset_
      (channel.1, castFloat ops T temp)
    else
      (channel.1, castValue ops T channel.2)
  match s.data_type_ with
  | SignalDataType.SignedData => convert (ChannelValue ops (NumType.sint 64) s)
  | SignalDataType.UnsignedData => convert (ChannelValue ops (NumType.uint 64) s)
  | SignalDataType.FloatData => convert (ChannelValue ops NumType.float s)
  | SignalDataType.DoubleData => convert (ChannelValue ops NumType.double s)

/-! ## A computable binary64 instance of the floating point primitives -/

/-- A binary64 datum: not-a-number, an infinity, or the finite value `(-1)^neg * m * 2^e`.
The operations below return finite values with `m` odd (or `m = 0`, `e = 0`), so equal
results have equal representations. -/
inductive F64 where
  | nan
  | inf (neg : Bool)
  | fin (neg : Bool) (m : Nat) (e : Int)
  deriving DecidableEq, Repr

/-- The number of binary digits of `n` (the first argument bounds the recursion). -/
def bitLen : Nat → Nat → Nat
  | 0, _ => 0
  | fuel + 1, n => if n = 0 then 0 else bitLen fuel (n / 2) + 1

/-- Moves the trailing zero bits of `m` into the exponent (the first argument bounds the
recursion). -/
def stripZeros : Nat → Nat → Int → Nat × Int
  | 0, m, e => (m, e)
  | fuel + 1, m, e =>
    if m % 2 = 0 ∧ m ≠ 0 then stripZeros fuel (m / 2) (e + 1) else (m, e)

/-- The representation with odd mantissa of the finite value `(-1)^neg * m * 2^e`. -/
def F64.normal (neg : Bool) (m : Nat) (e : Int) : F64 :=
  if m = 0 then F64.fin neg 0 0
  else F64.fin neg (stripZeros m m e).1 (stripZeros m m e).2

/-- Rounding of the exact value `(-1)^neg * m * 2^e` to the nearest value with a mantissa
of `p` bits and an exponent between `emin` and `emax`, ties to even, overflow to an
infinity. -/
def F64.round (p : Nat) (emin emax : Int) (neg : Bool) (m : Nat) (e : Int) : F64 :=
  if m = 0 then F64.fin neg 0 0
  else
    let e1 := max (e + Int.ofNat (bitLen m m) - Int.ofNat p) emin
    if e1 ≤ e then
      if e1 > emax then F64.inf neg else F64.normal neg m e
    else
      let sh := (e1 - e).toNat
      let q := m / 2 ^ sh
      let r := m % 2 ^ sh
      let half := 2 ^ (sh - 1)
      let q1 := if r > half ∨ (r = half ∧ q % 2 = 1) then q + 1 else q
      let e2 := if q1 = 2 ^ p then e1 + 1 else e1
      if e2 > emax then F64.inf neg else F64.normal neg q1 e1

/-- Rounding to binary64 (`double`). -/
def F64.roundDouble (neg : Bool) (m : Nat) (e : Int) : F64 :=
  F64.round 53 (-1074) 971 neg m e

/-- Rounding to binary32 (`float`). -/
def F64.roundSingle (neg : Bool) (m : Nat) (e : Int) : F64 :=
  F64.round 24 (-149) 104 neg m e

/-- The comparison `==`: a NaN equals nothing, the two zeros are equal. -/
def F64.eq : F64 → F64 → Bool
  | F64.fin s1 m1 e1, F64.fin s2 m2 e2 =>
    if m1 = 0 ∧ m2 = 0 then true
    else
      decide (s1 = s2) &&
        decide (m1 * 2 ^ (e1 - min e1 e2).toNat = m2 * 2 ^ (e2 - min e1 e2).toNat)
  | F64.inf s1, F64.inf s2 => decide (s1 = s2)
  | _, _ => false

/-- The product, rounded to binary64. -/
def F64.mul : F64 → F64 → F64
  | F64.fin s1 m1 e1, F64.fin s2 m2 e2 => F64.roundDouble (xor s1 s2) (m1 * m2) (e1 + e2)
  | F64.inf s1, F64.inf s2 => F64.inf (xor s1 s2)
  | F64.inf s1, F64.fin s2 m _ => if m = 0 then F64.nan else F64.inf (xor s1 s2)
  | F64.fin s1 m _, F64.inf s2 => if m = 0 then F64.nan else F64.inf (xor s1 s2)
  | _, _ => F64.nan

/-- The sum, rounded to binary64. -/
def F64.add : F64 → F64 → F64
  | F64.fin s1 m1 e1, F64.fin s2 m2 e2 =>
    if m1 = 0 ∧ m2 = 0 then F64.fin (s1 && s2) 0 0
    else
      let e := min e1 e2
      let a : Int := (if s1 then -1 else 1) * Int.ofNat (m1 * 2 ^ (e1 - e).toNat)
      let b : Int := (if s2 then -1 else 1) * Int.ofNat (m2 * 2 ^ (e2 - e).toNat)
      if a + b = 0 then F64.fin false 0 0
      else F64.roundDouble (decide (a + b < 0)) (a + b).natAbs e
  | F64.inf s1, F64.inf s2 => if s1 = s2 then F64.inf s1 else F64.nan
  | F64.inf s1, F64.fin _ _ _ => F64.inf s1
  | F64.fin _ _ _, F64.inf s2 => F64.inf s2
  | _, _ => F64.nan

/-- The conversion of a `double` to a `float`. -/
def F64.toSingle : F64 → F64
  | F64.fin s m e => F64.roundSingle s m e
  | d => d

/-- The conversion of a `double` to an integer type: truncation toward zero.  C++ leaves
the result undefined when the truncated value is not a value of the type (and for a NaN or
an infinity); this instance yields `0` there. -/
def F64.toInt (signed : Bool) (w : Nat) : F64 → Int
  | F64.fin s m e =>
    let t : Int := Int.ofNat (if 0 ≤ e then m * 2 ^ e.toNat else m / 2 ^ (-e).toNat)
    let v : Int := if s then -t else t
    let lo : Int := if signed then -(2 : Int) ^ (w - 1) else 0
    let hi : Int := if signed then (2 : Int) ^ (w - 1) else (2 : Int) ^ w
    if lo ≤ v ∧ v < hi then v else 0
  | _ => 0

/-- The `float` with the given 32-bit pattern. -/
def F64.ofBits32 (n : Nat) : F64 :=
  let neg := decide (n / 2 ^ 31 % 2 = 1)
  let ex := n / 2 ^ 23 % 2 ^ 8
  let frac := n % 2 ^ 23
  if ex = 255 then (if frac = 0 then F64.inf neg else F64.nan)
  else if ex = 0 then F64.normal neg frac (-149)
  else F64.normal neg (2 ^ 23 + frac) (Int.ofNat ex - 150)

/-- The `double` with the given 64-bit pattern. -/
def F64.ofBits64 (n : Nat) : F64 :=
  let neg := decide (n / 2 ^ 63 % 2 = 1)
  let ex := n / 2 ^ 52 % 2 ^ 11
  let frac := n % 2 ^ 52
  if ex = 2047 then (if frac = 0 then F64.inf neg else F64.nan)
  else if ex = 0 then F64.normal neg frac (-1074)
  else F64.normal neg (2 ^ 52 + frac) (Int.ofNat ex - 1075)

/-- The binary64 instance of the floating point primitives. -/
def ieee : FloatOps F64 :=
  { zero := F64.fin false 0 0
    one := F64.fin false 1 0
    eq := F64.eq
    mul := F64.mul
    add := F64.add
    ofInt := fun i => F64.roundDouble (decide (i < 0)) i.natAbs 0
    ofIntSingle := fun i => F64.roundSingle (decide (i < 0)) i.natAbs 0
    toSingle := F64.toSingle
    toInt := F64.toInt
    ofBits32 := F64.ofBits32
    ofBits64 := F64.ofBits64 }

/-- A default-constructed signal over the binary64 instance with the given data type, bit
length and cached sample (the state the setters `DataType`, `BitLength` and a decode
leave). -/
def sampleSignal (dt : SignalDataType) (len : Nat) (v : SignalValue F64) : Signal F64 :=
  { Signal.init ieee with data_type_ := dt, bit_length_ := len, channel_value_ := v }

/-! ## Bit codec (`dbchelper.h`) -/

/-- The bit at position `p` of a buffer: bit `p % 8` (counted from the least significant)
of the byte at index `p / 8`; a position past the end reads as 0. -/
def getBit (raw : List Nat) (p : Nat) : Bool := (raw.getD (p / 8) 0).testBit (p % 8)

/-- The buffer after a read-modify-write of the bit at position `p`: the byte at `p / 8`
gets the mask `1 << (p % 8)` or-ed in or and-ed out. -/
def setBit (raw : List Nat) (p : Nat) (b : Bool) : List Nat :=
  raw.set (p / 8)
    (if b then raw.getD (p / 8) 0 ||| 2 ^ (p % 8)
     else raw.getD (p / 8) 0 &&& (255 ^^^ 2 ^ (p % 8)))

/-- The position that follows `p` in the traversal of a field: the next higher position
for a little-endian field; for a big-endian field the next lower bit of the same byte and,
after bit 0, bit 7 of the following byte. -/
def nextBit (little_endian : Bool) (p : Nat) : Nat :=
  if little_endian then p + 1 else if p % 8 = 0 then p + 15 else p - 1

/-- The positions of a field in traversal order, from `start`. -/
def fieldBits (little_endian : Bool) : Nat → Nat → List Nat
  | _, 0 => []
  | p, n + 1 => p :: fieldBits little_endian (nextBit little_endian p) n

/-- The field lies inside the buffer: none of its positions is past the last byte. -/
def fieldFits (little_endian : Bool) (start length : Nat) (raw : List Nat) : Bool :=
  (fieldBits little_endian start length).all (fun p => decide (p < 8 * raw.length))

/-- Assembles the bits at the given positions, the first position the least significant. -/
def readLsbFirst (raw : List Nat) : List Nat → Nat
  | [] => 0
  | p :: ps => (getBit raw p).toNat + 2 * readLsbFirst raw ps

/-- Assembles the bits at the given positions into the accumulator, the first position the
most significant. -/
def readMsbFirst (raw : List Nat) : Nat → List Nat → Nat
  | acc, [] => acc
  | acc, p :: ps => readMsbFirst raw (2 * acc + (getBit raw p).toNat) ps

/-- Writes the low bits of `value` at the given positions, the first position the least
significant. -/
def writeLsbFirst : Nat → List Nat → List Nat → List Nat
  | _, [], raw => raw
  | value, p :: ps, raw => writeLsbFirst (value / 2) ps (setBit raw p (value.testBit 0))

/-- Writes the low bits of `value` at the given positions, the first position the most
significant. -/
def writeMsbFirst (value : Nat) : List Nat → List Nat → List Nat
  | [], raw => raw
  | p :: ps, raw => writeMsbFirst value ps (setBit raw p (value.testBit ps.length))

/-- Modelled from the spec: the body of `DbcHelper::RawToUnsigned`, declared in
`dbchelper.h` and defined outside it.  It walks `length` bits from `start` and assembles
them into a 64-bit accumulator, a little-endian field from its least significant bit
upward, a big-endian field from its most significant bit in Motorola order; a length
outside `[1, 64]` or a field that leaves the buffer fails. -/
def RawToUnsigned (little_endian : Bool) (start length : Nat) (raw : List Nat) : Option Nat :=
  if length = 0 ∨ 64 < length then none
  else if !fieldFits little_endian start length raw then none
  else if little_endian then some (readLsbFirst raw (fieldBits true start length))
  else some (readMsbFirst raw 0 (fieldBits false start length))

/-- Modelled from the spec: the body of `DbcHelper::UnsignedToRaw`, declared in
`dbchelper.h` and defined outside it.  The inverse of `RawToUnsigned`: a read-modify-write
of the bits of the field, in the same traversal order, with the low `length` bits of the
value. -/
def UnsignedToRaw (little_endian : Bool) (start length : Nat) (value : Nat)
    (raw : List Nat) : Option (List Nat) :=
  if length = 0 ∨ 64 < length then none
  else if !fieldFits little_endian start length raw then none
  else if little_endian then some (writeLsbFirst value (fieldBits true start length) raw)
  else some (writeMsbFirst value (fieldBits false start length) raw)

/-- Modelled from the spec: the body of `DbcHelper::RawToSigned`.  Extracts as unsigned and
sign-extends from `length` bits on the top extracted bit. -/
def RawToSigned (little_endian : Bool) (start length : Nat) (raw : List Nat) : Option Int :=
  match RawToUnsigned little_endian start length raw with
  | none => none
  | some u => some (if u.testBit (length - 1) then Int.ofNat u - (2 : Int) ^ length
                    else Int.ofNat u)

/-- Modelled from the spec: the body of `DbcHelper::SignedToRaw`.  Packs the two's
complement bits of the value. -/
def SignedToRaw (little_endian : Bool) (start length : Nat) (value : Int)
    (raw : List Nat) : Option (List Nat) :=
  UnsignedToRaw little_endian start length (value % (2 : Int) ^ 64).toNat raw

/-- The position with the same byte and the mirrored bit: it turns the Motorola traversal
into a traversal by increasing position. -/
def mirrorBit (p : Nat) : Nat := 8 * (p / 8) + (7 - p % 8)

/-! ## Multiplexing and the decode step -/

/-- The method `Signal::ResetSampleCounter`. -/
def Signal.ResetSampleCounter {F : Type} (s : Signal F) : Signal F :=
  { s with sample_counter_ := 0 }

/-- The method `Signal::StepSampleCounter`: `++sample_counter_` on a `size_t`. -/
def Signal.StepSampleCounter {F : Type} (s : Signal F) : Signal F :=
  { s with sample_counter_ := (s.sample_counter_ + 1) % 2 ^ 64 }

/-- The first range of the list, in declaration order, that contains the value decides a
match. -/
def rangeMatch : List (Nat × Nat) → Nat → Bool
  | [], _ => false
  | r :: rest, value => if r.1 ≤ value ∧ value ≤ r.2 then true else rangeMatch rest value

/-- Modelled from the spec: the body of `ExtendedMux::InRange`, declared in `signal.h` and
defined outside it.  Some range of the ordered range list contains the value, both bounds
inclusive. -/
def ExtendedMux.InRange (m : ExtendedMux) (value : Nat) : Bool :=
  rangeMatch m.range_list value

/-- Modelled from the spec: the applicability test made by `Signal::ParseMessage`
(MultiplexResolver).  `selector` is what the multiplexor field of the frame decodes to.  A
signal that is not multiplexed, or is the multiplexor itself, never consults it; a
`Multiplexed` signal needs it equal to its selector value, an `ExtendedMultiplexor` signal
needs it inside one of its ranges. -/
def Signal.applicable {F : Type} (s : Signal F) (selector : Option Nat) : Bool :=
  match s.Mux with
  | MuxType.NotMultiplexed => true
  | MuxType.Multiplexor => true
  | MuxType.Multiplexed =>
    match selector with
    | some m => decide (Int.ofNat m = s.MuxValue)
    | none => false
  | MuxType.ExtendedMultiplexor =>
    match selector with
    | some m => s.extended_mux_.InRange m
    | none => false

/-- Modelled from the spec: the body of `DbcHelper::RawToFloat`.  Needs a length of 32,
extracts as unsigned and reinterprets the bit pattern. -/
def RawToFloat {F : Type} (ops : FloatOps F) (little_endian : Bool) (start length : Nat)
    (raw : List Nat) : Option F :=
  if length = 32 then (RawToUnsigned little_endian start length raw).map ops.ofBits32
  else none

/-- Modelled from the spec: the body of `DbcHelper::RawToDouble`.  Needs a length of 64,
extracts as unsigned and reinterprets the bit pattern. -/
def RawToDouble {F : Type} (ops : FloatOps F) (little_endian : Bool) (start length : Nat)
    (raw : List Nat) : Option F :=
  if length = 64 then (RawToUnsigned little_endian start length raw).map ops.ofBits64
  else none

/-- Modelled from the spec: the extraction step of `Signal::ParseMessage`.  The field is
extracted by the codec according to the data type and layout of the signal; the new cached
sample is a whole, valid `SignalValue` holding the extracted variant. -/
def Signal.extract {F : Type} (ops : FloatOps F) (s : Signal F) (message : List Nat) :
    Option (SignalValue F) :=
  match s.data_type_ with
  | SignalDataType.SignedData =>
    (RawToSigned s.little_endian_ s.bit_start_ s.bit_length_ message).map
      (fun x => { SignalValue.init ops with valid := true, signed_value := x })
  | SignalDataType.UnsignedData =>
    (RawToUnsigned s.little_endian_ s.bit_start_ s.bit_length_ message).map
      (fun x => { SignalValue.init ops with valid := true, unsigned_value := x })
  | SignalDataType.FloatData =>
    (RawToFloat ops s.little_endian_ s.bit_start_ s.bit_length_ message).map
      (fun x => { SignalValue.init ops with valid := true, float_value := x })
  | SignalDataType.DoubleData =>
    (RawToDouble ops s.little_endian_ s.bit_start_ s.bit_length_ message).map
      (fun x => { SignalValue.init ops with valid := true, float_value := x })

/-- Modelled from the spec: the body of `Signal::ParseMessage`, declared in `signal.h` and
defined outside it.  `multiplexor` is the signal of the same message that carries the
selector; its layout locates the multiplexor field in the frame.  The result is the new
state of the signal and the observers notified, in attachment order.
1. A signal that is not applicable to the frame returns without side effects.
2. A failed extraction invalidates the cached sample and still records the time and id.
3. A successful one replaces the cached sample, records time and id and steps the counter.
4. The attached observers are then notified. -/
def ParseMessage {F : Type} (ops : FloatOps F) (multiplexor : Signal F) (message : List Nat)
    (ns1970 can_id : Nat) (s : Signal F) : Signal F × List Nat :=
  let selector := RawToUnsigned multiplexor.little_endian_ multiplexor.bit_start_
    multiplexor.bit_length_ message
  if !s.applicable selector then (s, [])
  else
    match s.extract ops message with
    | none =>
      ({ s with channel_value_ := { s.channel_value_ with valid := false },
                sample_time_ := ns1970, sample_can_id_ := can_id }, [])
    | some v =>
      (Signal.StepSampleCounter
        { s with channel_value_ := v, sample_time_ := ns1970, sample_can_id_ := can_id },
        s.observer_list_)

/-! ## Enumeration labels -/

/-- The label stored under the key in a table of (key, label) entries, if there is one. -/
def enumFind : List (Int × String) → Int → Option String
  | [], _ => none
  | entry :: rest, index => if entry.1 = index then some entry.2 else enumFind rest index

/-- Modelled from the spec: the body of `Signal::GetEnumString`, declared in `signal.h` and
defined outside it.  It looks the exact integer key up in `enum_list_` and returns its
label; an unmapped key yields the explicit empty label, not a failure. -/
def Signal.GetEnumString {F : Type} (s : Signal F) (index : Int) : String :=
  match enumFind s.enum_list_ index with
  | some label => label
  | none => ""

/-! ## Reads of the channel and engineering value -/

theorem wrapS_of_range (x : Int) (h1 : -(2 : Int) ^ 63 ≤ x) (h2 : x < (2 : Int) ^ 63) :
    wrapS 64 x = x := by
  unfold wrapS
  norm_num at h1 h2 ⊢
  split_ifs with h <;> omega

theorem wrapU_of_range (n : Nat) (h : n < 2 ^ 64) : wrapU 64 (Int.ofNat n) = Int.ofNat n := by
  unfold wrapU
  norm_num at h ⊢
  omega

/-- The byte count computed in the `UnsignedData` case exceeds 8 exactly when the bit
length exceeds 64. -/
theorem bytes_gt_iff (len : Nat) :
    (if len % 8 ≠ 0 then len / 8 + 1 else len / 8) > 8 ↔ 64 < len := by
  split_ifs with h <;> omega

/-- The flag of `ChannelValue` is never true when a validity flag is false. -/
theorem ChannelValue_flag_le {F : Type} (ops : FloatOps F) (T : NumType) (s : Signal F) :
    (ChannelValue ops T s).1 = true → s.channel_value_.valid = true ∧ s.Valid = true := by
  unfold ChannelValue
  cases s.data_type_ <;> simp
  split_ifs <;> simp

/-- The flag of `ChannelValue`: both validity flags, and at most 64 bits when the data
type is `UnsignedData`. -/
theorem ChannelValue_flag {F : Type} (ops : FloatOps F) (T : NumType) (s : Signal F) :
    (ChannelValue ops T s).1 =
      (s.channel_value_.valid && s.Valid &&
        decide (s.data_type_ = SignalDataType.UnsignedData → s.bit_length_ ≤ 64)) := by
  unfold ChannelValue
  cases hd : s.data_type_
  case UnsignedData =>
    have hb := bytes_gt_iff s.bit_length_
    by_cases hl : s.bit_length_ ≤ 64
    · simp only []
      rw [if_neg (by rw [hb]; omega)]
      simp [hl]
    · simp only []
      rw [if_pos (by rw [hb]; omega)]
      simp [hl]
  all_goals simp

/-- The flag of `EngValue` is the flag of `ChannelValue` in the native type. -/
theorem EngValue_flag {F : Type} (ops : FloatOps F) (T : NumType) (s : Signal F) :
    (EngValue ops T s).1 = (ChannelValue ops (nativeType s.data_type_) s).1 := by
  unfold EngValue
  cases h : s.data_type_ <;> simp only [nativeType] <;> split_ifs <;> rfl

/-- The output of `EngValue` in terms of the output of `ChannelValue` in the native type. -/
theorem EngValue_value {F : Type} (ops : FloatOps F) (T : NumType) (s : Signal F) :
    (EngValue ops T s).2 =
      if needToConvert ops s = true then
        castFloat ops T
          (ops.add (ops.mul (toDouble ops (ChannelValue ops (nativeType s.data_type_) s).2)
            s.scale_) s.offset_)
      else castValue ops T (ChannelValue ops (nativeType s.data_type_) s).2 := by
  unfold EngValue
  cases h : s.data_type_ <;> simp only [nativeType] <;> split_ifs <;> rfl

/-- The output of `ChannelValue` does not depend on the validity flags. -/
theorem ChannelValue_value_flags {F : Type} (ops : FloatOps F) (T : NumType) (s : Signal F)
    (b c : Bool) :
    (ChannelValue ops T
        { s with valid_ := b, channel_value_ := { s.channel_value_ with valid := c } }).2 =
      (ChannelValue ops T s).2 := by
  unfold ChannelValue
  cases h : s.data_type_
  case UnsignedData =>
    simp only []
    split_ifs <;> rfl
  all_goals rfl

/-- C1: when the external validity flag `Valid()` or the validity flag of the cached
sample is false, `ChannelValue<T>` and `EngValue<T>` both return false, for every signal
state, data type and requested type. -/
theorem C1_invalid_read_fails {F : Type} (ops : FloatOps F) (T : NumType) (s : Signal F)
    (h : s.Valid = false ∨ s.channel_value_.valid = false) :
    (ChannelValue ops T s).1 = false ∧ (EngValue ops T s).1 = false := by
  have key : ∀ U : NumType, (ChannelValue ops U s).1 = false := by
    intro U
    cases hU : (ChannelValue ops U s).1
    · rfl
    · have := ChannelValue_flag_le ops U s hU
      rcases h with h | h <;> simp [h] at this
  exact ⟨key T, by rw [EngValue_flag]; exact key _⟩

/-- Witness of C1: a signed signal whose cached sample holds 5 and is invalid. -/
theorem C1_invalid_read_fails_witness :
    ((sampleSignal SignalDataType.SignedData 8
        { valid := false, signed_value := 5, unsigned_value := 0, float_value := ieee.zero,
          array_value := [] }).Valid = false ∨
      (sampleSignal SignalDataType.SignedData 8
        { valid := false, signed_value := 5, unsigned_value := 0, float_value := ieee.zero,
          array_value := [] }).channel_value_.valid = false) ∧
    (ChannelValue ieee (NumType.sint 32) (sampleSignal SignalDataType.SignedData 8
        { valid := false, signed_value := 5, unsigned_value := 0, float_value := ieee.zero,
          array_value := [] })).1 = false ∧
    (EngValue ieee (NumType.sint 32) (sampleSignal SignalDataType.SignedData 8
        { valid := false, signed_value := 5, unsigned_value := 0, float_value := ieee.zero,
          array_value := [] })).1 = false :=
  ⟨Or.inr rfl, C1_invalid_read_fails ieee (NumType.sint 32) _ (Or.inr rfl)⟩

/-- C2 fails as stated: a signed signal whose cached sample is invalid and holds 5 hands
back 5, not the zero of `int64_t`, together with the failure flag. -/
theorem C2_counterexample :
    (sampleSignal SignalDataType.SignedData 8
        { valid := false, signed_value := 5, unsigned_value := 0, float_value := ieee.zero,
          array_value := [] }).channel_value_.valid = false ∧
    ChannelValue ieee (NumType.sint 64) (sampleSignal SignalDataType.SignedData 8
        { valid := false, signed_value := 5, unsigned_value := 0, float_value := ieee.zero,
          array_value := [] }) = (false, Value.int 5) ∧
    Value.int 5 ≠ zeroOf ieee (NumType.sint 64) := by
  decide

/-- C2, amended: when the external validity flag or the validity flag of the cached sample
is false, `ChannelValue<T>` returns false and leaves in the output the cached variant
selected by the data type, converted to `T`; the output is the zero of `T` for an
`UnsignedData` signal whose bit length exceeds 64. -/
theorem C2_invalid_channel_value {F : Type} (ops : FloatOps F) (T : NumType) (s : Signal F)
    (h : s.Valid = false ∨ s.channel_value_.valid = false) :
    ChannelValue ops T s =
      (false,
        match s.data_type_ with
        | SignalDataType.SignedData => castInt ops T s.channel_value_.signed_value
        | SignalDataType.UnsignedData =>
          if s.bit_length_ ≤ 64 then castInt ops T (Int.ofNat s.channel_value_.unsigned_value)
          else zeroOf ops T
        | SignalDataType.FloatData => castFloat ops T s.channel_value_.float_value
        | SignalDataType.DoubleData => castFloat ops T s.channel_value_.float_value) := by
  have hv : (s.channel_value_.valid && s.Valid) = false := by
    rcases h with h | h <;> simp [h]
  unfold ChannelValue
  cases hd : s.data_type_ <;> simp only [hv]
  have hb := bytes_gt_iff s.bit_length_
  by_cases hl : s.bit_length_ ≤ 64
  · rw [if_neg (by rw [hb]; omega), if_pos hl]
  · rw [if_pos (by rw [hb]; omega), if_neg hl]

/-- Witness of C2 (amended): the invalid signed sample holding 5, read as `int64_t`. -/
theorem C2_invalid_channel_value_witness :
    ChannelValue ieee (NumType.sint 64) (sampleSignal SignalDataType.SignedData 8
        { valid := false, signed_value := 5, unsigned_value := 0, float_value := ieee.zero,
          array_value := [] }) = (false, castInt ieee (NumType.sint 64) 5) :=
  C2_invalid_channel_value ieee (NumType.sint 64)
    (sampleSignal SignalDataType.SignedData 8
      { valid := false, signed_value := 5, unsigned_value := 0, float_value := ieee.zero,
        array_value := [] }) (Or.inr rfl)

/-- C3 fails as stated: with the default scale 1 and offset 0, a signed signal whose cached
sample is invalid and holds 5 yields the stale 5 from `EngValue<int64_t>`, not zero. -/
theorem C3_counterexample :
    (sampleSignal SignalDataType.SignedData 8
        { valid := false, signed_value := 5, unsigned_value := 0, float_value := ieee.zero,
          array_value := [] }).channel_value_.valid = false ∧
    EngValue ieee (NumType.sint 64) (sampleSignal SignalDataType.SignedData 8
        { valid := false, signed_value := 5, unsigned_value := 0, float_value := ieee.zero,
          array_value := [] }) = (false, Value.int 5) ∧
    Value.int 5 ≠ zeroOf ieee (NumType.sint 64) := by
  decide

/-- C3, amended: when the cached sample is invalid, `EngValue<T>` returns false for every
scale, offset and enumeration table, and the output is the value it computes from the
cached fields, the same as if the cached sample were valid (it is not zeroed). -/
theorem C3_invalid_eng_value {F : Type} (ops : FloatOps F) (T : NumType) (s : Signal F)
    (h : s.channel_value_.valid = false) :
    (EngValue ops T s).1 = false ∧
      (EngValue ops T s).2 =
        (EngValue ops T { s with channel_value_ := { s.channel_value_ with valid := true } }).2 := by
  constructor
  · rw [EngValue_flag]
    cases hU : (ChannelValue ops (nativeType s.data_type_) s).1
    · rfl
    · have := (ChannelValue_flag_le ops _ s hU).1
      simp [h] at this
  · have hcv := ChannelValue_value_flags ops (nativeType s.data_type_) s s.valid_ true
    rw [EngValue_value, EngValue_value]
    simp only [needToConvert] at hcv ⊢
    rw [hcv]

/-- Witness of C3 (amended): the invalid signed sample holding 5. -/
theorem C3_invalid_eng_value_witness :
    (EngValue ieee (NumType.sint 64) (sampleSignal SignalDataType.SignedData 8
        { valid := false, signed_value := 5, unsigned_value := 0, float_value := ieee.zero,
          array_value := [] })).1 = false ∧
    (EngValue ieee (NumType.sint 64) (sampleSignal SignalDataType.SignedData 8
        { valid := false, signed_value := 5, unsigned_value := 0, float_value := ieee.zero,
          array_value := [] })).2 =
      (EngValue ieee (NumType.sint 64) (sampleSignal SignalDataType.SignedData 8
        { valid := true, signed_value := 5, unsigned_value := 0, float_value := ieee.zero,
          array_value := [] })).2 :=
  C3_invalid_eng_value ieee (NumType.sint 64)
    (sampleSignal SignalDataType.SignedData 8
      { valid := false, signed_value := 5, unsigned_value := 0, float_value := ieee.zero,
        array_value := [] }) rfl

/-- The test that switches the conversion off. -/
theorem needToConvert_eq {F : Type} (ops : FloatOps F) (s : Signal F) :
    needToConvert ops s =
      (s.enum_list_.isEmpty && !(ops.eq s.scale_ ops.one && ops.eq s.offset_ ops.zero)) := by
  unfold needToConvert
  cases s.enum_list_.isEmpty <;>
    cases (ops.eq s.scale_ ops.one && ops.eq s.offset_ ops.zero) <;> rfl

/-- The output of `ChannelValue<int64_t>` on a signed signal. -/
theorem ChannelValue_signed {F : Type} (ops : FloatOps F) (s : Signal F)
    (hd : s.data_type_ = SignalDataType.SignedData) (hr : s.channel_value_.InRange) :
    (ChannelValue ops (NumType.sint 64) s).2 = Value.int s.channel_value_.signed_value := by
  unfold ChannelValue
  simp only [hd, castInt]
  rw [wrapS_of_range _ hr.1 hr.2.1]

/-- The output of `ChannelValue<uint64_t>` on an unsigned signal of at most 64 bits. -/
theorem ChannelValue_unsigned {F : Type} (ops : FloatOps F) (s : Signal F)
    (hd : s.data_type_ = SignalDataType.UnsignedData) (hl : s.bit_length_ ≤ 64)
    (hr : s.channel_value_.InRange) :
    (ChannelValue ops (NumType.uint 64) s).2 =
      Value.int (Int.ofNat s.channel_value_.unsigned_value) := by
  unfold ChannelValue
  simp only [hd]
  rw [if_neg (by rw [bytes_gt_iff]; omega)]
  simp only [castInt]
  rw [wrapU_of_range _ hr.2.2]

/-- C4: when the enumeration table is not empty (whatever the scale and offset) or the
scale compares equal to 1.0 and the offset to 0.0, `EngValue<int64_t>` on a `SignedData`
signal yields exactly the cached signed 64-bit value and `EngValue<uint64_t>` on an
`UnsignedData` signal of at most 64 bits yields exactly the cached unsigned 64-bit value,
over the full 64-bit ranges. -/
theorem C4_skip_conversion_exact {F : Type} (ops : FloatOps F) (s : Signal F)
    (hr : s.channel_value_.InRange)
    (hskip : s.enum_list_ ≠ [] ∨
      (ops.eq s.scale_ ops.one = true ∧ ops.eq s.offset_ ops.zero = true)) :
    (s.data_type_ = SignalDataType.SignedData →
      (EngValue ops (NumType.sint 64) s).2 = Value.int s.channel_value_.signed_value) ∧
    (s.data_type_ = SignalDataType.UnsignedData → s.bit_length_ ≤ 64 →
      (EngValue ops (NumType.uint 64) s).2 =
        Value.int (Int.ofNat s.channel_value_.unsigned_value)) := by
  have hn : needToConvert ops s = false := by
    rw [needToConvert_eq]
    rcases hskip with h | ⟨h1, h2⟩
    · have : s.enum_list_.isEmpty = false := by
        cases hl : s.enum_list_ with
        | nil => exact absurd hl h
        | cons a l => rfl
      simp [this]
    · simp [h1, h2]
  constructor
  · intro hd
    rw [EngValue_value, hn, hd]
    simp only [nativeType, Bool.false_eq_true, if_false]
    rw [ChannelValue_signed ops s hd hr]
    simp only [castValue, castInt]
    rw [wrapS_of_range _ hr.1 hr.2.1]
  · intro hd hl
    rw [EngValue_value, hn, hd]
    simp only [nativeType, Bool.false_eq_true, if_false]
    rw [ChannelValue_unsigned ops s hd hl hr]
    simp only [castValue, castInt]
    rw [wrapU_of_range _ hr.2.2]

/-- Witness of C4: a signed signal with scale 1.0, offset 0.0 and cached value `2^53 + 1`,
and an unsigned 64-bit signal with an enumeration table, scale 0.5 and cached value
`2^64 - 1`. -/
theorem C4_skip_conversion_exact_witness :
    (EngValue ieee (NumType.sint 64) (sampleSignal SignalDataType.SignedData 64
        { valid := true, signed_value := 9007199254740993, unsigned_value := 0,
          float_value := ieee.zero, array_value := [] })).2 =
      Value.int 9007199254740993 ∧
    (EngValue ieee (NumType.uint 64)
        { sampleSignal SignalDataType.UnsignedData 64
            { valid := true, signed_value := 0, unsigned_value := 18446744073709551615,
              float_value := ieee.zero, array_value := [] } with
          enum_list_ := [(1, "A")], scale_ := F64.fin false 1 (-1) }).2 =
      Value.int 18446744073709551615 :=
  ⟨(C4_skip_conversion_exact ieee (sampleSignal SignalDataType.SignedData 64
        { valid := true, signed_value := 9007199254740993, unsigned_value := 0,
          float_value := ieee.zero, array_value := [] })
      (by unfold SignalValue.InRange; decide) (Or.inr (by decide))).1 rfl,
   (C4_skip_conversion_exact ieee
        { sampleSignal SignalDataType.UnsignedData 64
            { valid := true, signed_value := 0, unsigned_value := 18446744073709551615,
              float_value := ieee.zero, array_value := [] } with
          enum_list_ := [(1, "A")], scale_ := F64.fin false 1 (-1) }
      (by unfold SignalValue.InRange; decide) (Or.inl (by simp))).2 rfl (by decide)⟩

/-- C5 fails as stated: a valid signed signal with cached value 3, scale 2.0, offset 0.0
and a non-empty enumeration table is not in the configuration (1.0, 0.0, empty table), yet
`EngValue<double>` yields 3.0, while `raw * scale + offset` is 6.0. -/
theorem C5_counterexample :
    ¬ (F64.eq (F64.fin false 1 1) ieee.one = true ∧ F64.eq ieee.zero ieee.zero = true ∧
        [((3 : Int), "three")] = []) ∧
    EngValue ieee NumType.double
        { sampleSignal SignalDataType.SignedData 8
            { valid := true, signed_value := 3, unsigned_value := 0,
              float_value := ieee.zero, array_value := [] } with
          enum_list_ := [(3, "three")], scale_ := F64.fin false 1 1 } =
      (true, Value.flt (F64.fin false 3 0)) ∧
    ieee.add (ieee.mul (ieee.ofInt 3) (F64.fin false 1 1)) ieee.zero = F64.fin false 3 1 ∧
    F64.fin false 3 0 ≠ F64.fin false 3 1 := by
  decide

/-- C5, amended: for every valid signal (both validity flags true) the read succeeds unless
the signal is `UnsignedData` with more than 64 bits, and the output of `EngValue<T>` is the
raw channel value converted to `T` when the enumeration table is not empty or the scale
compares equal to 1.0 and the offset to 0.0, and `raw * scale + offset`, computed in
`double` and converted to `T`, when the table is empty and (scale, offset) is not
(1.0, 0.0).  The raw channel value is what `ChannelValue` yields in the native type of the
data type. -/
theorem C5_eng_value_cases {F : Type} (ops : FloatOps F) (T : NumType) (s : Signal F)
    (hv : s.Valid = true) (hc : s.channel_value_.valid = true) :
    (EngValue ops T s).1 =
        decide (s.data_type_ = SignalDataType.UnsignedData → s.bit_length_ ≤ 64) ∧
    (EngValue ops T s).2 =
      if s.enum_list_ ≠ [] ∨
          (ops.eq s.scale_ ops.one = true ∧ ops.eq s.offset_ ops.zero = true) then
        castValue ops T (ChannelValue ops (nativeType s.data_type_) s).2
      else
        castFloat ops T
          (ops.add (ops.mul (toDouble ops (ChannelValue ops (nativeType s.data_type_) s).2)
            s.scale_) s.offset_) := by
  constructor
  · rw [EngValue_flag, ChannelValue_flag, hv, hc]
    rfl
  · rw [EngValue_value, needToConvert_eq]
    cases hl : s.enum_list_ with
    | nil =>
      cases h1 : ops.eq s.scale_ ops.one <;> cases h2 : ops.eq s.offset_ ops.zero <;> simp
    | cons a l => simp

/-- Witness of C5 (amended): the valid signed signal with cached value 3, scale 2.0 and an
enumeration table. -/
theorem C5_eng_value_cases_witness :
    (EngValue ieee NumType.double
        { sampleSignal SignalDataType.SignedData 8
            { valid := true, signed_value := 3, unsigned_value := 0,
              float_value := ieee.zero, array_value := [] } with
          enum_list_ := [(3, "three")], scale_ := F64.fin false 1 1 }).1 = true ∧
    (EngValue ieee NumType.double
        { sampleSignal SignalDataType.SignedData 8
            { valid := true, signed_value := 3, unsigned_value := 0,
              float_value := ieee.zero, array_value := [] } with
          enum_list_ := [(3, "three")], scale_ := F64.fin false 1 1 }).2 =
      Value.flt (F64.fin false 3 0) := by
  have h := C5_eng_value_cases ieee NumType.double
    { sampleSignal SignalDataType.SignedData 8
        { valid := true, signed_value := 3, unsigned_value := 0,
          float_value := ieee.zero, array_value := [] } with
      enum_list_ := [(3, "three")], scale_ := F64.fin false 1 1 } rfl rfl
  exact ⟨h.1.trans (by decide), h.2.trans (by decide)⟩

/-- C6 fails as stated: on a valid `FloatData` signal whose cached `float_value` is the
`double` nearest to 0.1, with scale 2.0, offset 0.0 and no enumeration table,
`EngValue<double>` reads the channel into a `float` first and yields
`13421773 * 2^-26`, while `float_value * scale + offset` is `3602879701896397 * 2^-54`. -/
theorem C6_counterexample :
    EngValue ieee NumType.double
        { sampleSignal SignalDataType.FloatData 32
            { valid := true, signed_value := 0, unsigned_value := 0,
              float_value := F64.fin false 3602879701896397 (-55), array_value := [] } with
          scale_ := F64.fin false 1 1 } =
      (true, Value.flt (F64.fin false 13421773 (-26))) ∧
    ieee.add (ieee.mul (F64.fin false 3602879701896397 (-55)) (F64.fin false 1 1)) ieee.zero =
      F64.fin false 3602879701896397 (-54) ∧
    F64.fin false 13421773 (-26) ≠ F64.fin false 3602879701896397 (-54) := by
  decide

/-- C6, amended: for every valid signal with an empty enumeration table and (scale, offset)
not comparing equal to (1.0, 0.0), `EngValue<double>` returns true and yields
`double(raw) * scale + offset`, where raw is the cached `signed_value` for `SignedData`,
the cached `unsigned_value` for `UnsignedData` of at most 64 bits, the cached `float_value`
for `DoubleData`, and the cached `float_value` converted to `float` for `FloatData`. -/
theorem C6_eng_value_double {F : Type} (ops : FloatOps F) (s : Signal F)
    (hv : s.Valid = true) (hc : s.channel_value_.valid = true)
    (hr : s.channel_value_.InRange) (he : s.enum_list_ = [])
    (hso : (ops.eq s.scale_ ops.one && ops.eq s.offset_ ops.zero) = false)
    (hl : s.data_type_ = SignalDataType.UnsignedData → s.bit_length_ ≤ 64) :
    EngValue ops NumType.double s =
      (true,
        Value.flt (ops.add (ops.mul
          (match s.data_type_ with
            | SignalDataType.SignedData => ops.ofInt s.channel_value_.signed_value
            | SignalDataType.UnsignedData =>
              ops.ofInt (Int.ofNat s.channel_value_.unsigned_value)
            | SignalDataType.FloatData => ops.toSingle s.channel_value_.float_value
            | SignalDataType.DoubleData => s.channel_value_.float_value)
          s.scale_) s.offset_)) := by
  have hn : needToConvert ops s = true := by
    rw [needToConvert_eq, he, hso]
    rfl
  have hf : (EngValue ops NumType.double s).1 = true := by
    rw [EngValue_flag, ChannelValue_flag, hv, hc]
    exact decide_eq_true hl
  have hval := EngValue_value ops NumType.double s
  rw [hn] at hval
  simp only [if_true] at hval
  refine Prod.ext hf ?_
  rw [hval]
  cases hd : s.data_type_
  · simp only [nativeType, ChannelValue_signed ops s hd hr, toDouble, castFloat]
  · simp only [nativeType, ChannelValue_unsigned ops s hd (hl hd) hr, toDouble, castFloat]
  · simp only [nativeType, ChannelValue, hd, toDouble, castFloat]
  · simp only [nativeType, ChannelValue, hd, toDouble, castFloat]

/-- Witness of C6 (amended): the unsigned 8-bit signal with cached raw value 20, scale 0.5
and offset 10 yields 20.0 (`5 * 2^2`). -/
theorem C6_eng_value_double_witness :
    EngValue ieee NumType.double
        { sampleSignal SignalDataType.UnsignedData 8
            { valid := true, signed_value := 0, unsigned_value := 20,
              float_value := ieee.zero, array_value := [] } with
          scale_ := F64.fin false 1 (-1), offset_ := F64.fin false 5 1 } =
      (true, Value.flt (F64.fin false 5 2)) :=
  (C6_eng_value_double ieee
    { sampleSignal SignalDataType.UnsignedData 8
        { valid := true, signed_value := 0, unsigned_value := 20,
          float_value := ieee.zero, array_value := [] } with
      scale_ := F64.fin false 1 (-1), offset_ := F64.fin false 5 1 }
    rfl rfl (by unfold SignalValue.InRange; decide) rfl (by decide) (by decide)).trans
    (by decide)

/-- C7, evaluated at its failing inputs: on a valid `UnsignedData` signal of 16 bits whose
cached value is 300, `ChannelValue<uint8_t>` returns true with 44 (300 modulo 256); on a
valid `SignedData` signal whose cached value is -1, `ChannelValue<uint64_t>` returns true
with `2^64 - 1`. -/
theorem C7_narrowing_wraps :
    ChannelValue ieee (NumType.uint 8) (sampleSignal SignalDataType.UnsignedData 16
        { valid := true, signed_value := 0, unsigned_value := 300,
          float_value := ieee.zero, array_value := [] }) = (true, Value.int 44) ∧
    ChannelValue ieee (NumType.uint 64) (sampleSignal SignalDataType.SignedData 16
        { valid := true, signed_value := -1, unsigned_value := 0,
          float_value := ieee.zero, array_value := [] }) =
      (true, Value.int 18446744073709551615) := by
  decide

/-! ## The bit codec: round trip -/

theorem length_setBit (raw : List Nat) (p : Nat) (b : Bool) :
    (setBit raw p b).length = raw.length := by
  unfold setBit
  simp

theorem getD_set_zero (raw : List Nat) (i j x : Nat) :
    (raw.set i x).getD j 0 = if i = j ∧ i < raw.length then x else raw.getD j 0 := by
  simp only [List.getD_eq_getElem?_getD, List.getElem?_set]
  by_cases hij : i = j
  · subst hij
    by_cases hl : i < raw.length
    · simp [hl]
    · simp [hl, List.getElem?_eq_none (Nat.le_of_not_lt hl)]
  · simp [hij]

theorem testBit_255 (j : Nat) : Nat.testBit 255 j = decide (j < 8) :=
  Nat.testBit_two_pow_sub_one 8 j

theorem getBit_setBit_same (raw : List Nat) (p : Nat) (b : Bool) (h : p < 8 * raw.length) :
    getBit (setBit raw p b) p = b := by
  have hl : p / 8 < raw.length := by omega
  have hk : p % 8 < 8 := Nat.mod_lt _ (by decide)
  unfold getBit setBit
  rw [getD_set_zero, if_pos ⟨rfl, hl⟩]
  cases b
  · simp [Nat.testBit_land, Nat.testBit_xor, Nat.testBit_two_pow_self, testBit_255, hk]
  · simp [Nat.testBit_lor, Nat.testBit_two_pow_self]

theorem getBit_setBit_ne (raw : List Nat) (p q : Nat) (b : Bool) (h : p ≠ q) :
    getBit (setBit raw p b) q = getBit raw q := by
  have hq : q % 8 < 8 := Nat.mod_lt _ (by decide)
  unfold getBit setBit
  rw [getD_set_zero]
  by_cases hc : p / 8 = q / 8 ∧ p / 8 < raw.length
  · rw [if_pos hc]
    obtain ⟨h8, _⟩ := hc
    have hne : p % 8 ≠ q % 8 := by omega
    rw [h8]
    cases b
    · simp [Nat.testBit_land, Nat.testBit_xor, testBit_255, Nat.testBit_two_pow_of_ne hne, hq]
    · simp [Nat.testBit_lor, Nat.testBit_two_pow_of_ne hne]
  · rw [if_neg hc]

theorem length_writeLsbFirst (ps : List Nat) (v : Nat) (raw : List Nat) :
    (writeLsbFirst v ps raw).length = raw.length := by
  induction ps generalizing v raw with
  | nil => rfl
  | cons p ps ih => simp only [writeLsbFirst]; rw [ih, length_setBit]

theorem length_writeMsbFirst (v : Nat) (ps : List Nat) (raw : List Nat) :
    (writeMsbFirst v ps raw).length = raw.length := by
  induction ps generalizing raw with
  | nil => rfl
  | cons p ps ih => simp only [writeMsbFirst]; rw [ih, length_setBit]

theorem getBit_writeLsbFirst_of_not_mem (ps : List Nat) (v : Nat) (raw : List Nat) (q : Nat)
    (hq : q ∉ ps) : getBit (writeLsbFirst v ps raw) q = getBit raw q := by
  induction ps generalizing v raw with
  | nil => rfl
  | cons p ps ih =>
    simp only [List.mem_cons, not_or] at hq
    simp only [writeLsbFirst]
    rw [ih _ _ hq.2, getBit_setBit_ne _ _ _ _ (Ne.symm hq.1)]

theorem getBit_writeMsbFirst_of_not_mem (v : Nat) (ps : List Nat) (raw : List Nat) (q : Nat)
    (hq : q ∉ ps) : getBit (writeMsbFirst v ps raw) q = getBit raw q := by
  induction ps generalizing raw with
  | nil => rfl
  | cons p ps ih =>
    simp only [List.mem_cons, not_or] at hq
    simp only [writeMsbFirst]
    rw [ih _ hq.2, getBit_setBit_ne _ _ _ _ (Ne.symm hq.1)]

theorem testBit_zero_toNat (v : Nat) : (v.testBit 0).toNat = v % 2 := by
  rw [Nat.testBit_zero]
  rcases Nat.mod_two_eq_zero_or_one v with h | h <;> simp [h]

theorem read_writeLsbFirst (ps : List Nat) (v : Nat) (raw : List Nat) (hnd : ps.Nodup)
    (hfit : ∀ p ∈ ps, p < 8 * raw.length) :
    readLsbFirst (writeLsbFirst v ps raw) ps = v % 2 ^ ps.length := by
  induction ps generalizing v raw with
  | nil => simp [readLsbFirst, Nat.mod_one]
  | cons p ps ih =>
    rw [List.nodup_cons] at hnd
    have hp : p < 8 * raw.length := hfit p (List.mem_cons_self _ _)
    simp only [writeLsbFirst, readLsbFirst, List.length_cons]
    rw [getBit_writeLsbFirst_of_not_mem _ _ _ _ hnd.1, getBit_setBit_same _ _ _ hp,
      ih (v / 2) (setBit raw p (v.testBit 0)) hnd.2
        (fun q hq => by rw [length_setBit]; exact hfit q (List.mem_cons_of_mem _ hq)),
      testBit_zero_toNat, pow_succ, Nat.mul_comm (2 ^ ps.length) 2, Nat.mod_mul]

theorem readMsbFirst_acc (raw : List Nat) (acc : Nat) (ps : List Nat) :
    readMsbFirst raw acc ps = acc * 2 ^ ps.length + readMsbFirst raw 0 ps := by
  induction ps generalizing acc with
  | nil => simp [readMsbFirst]
  | cons p ps ih =>
    simp only [readMsbFirst, List.length_cons]
    rw [ih (2 * acc + _), ih (2 * 0 + _)]
    ring

theorem testBit_toNat_mul (v k : Nat) :
    (v.testBit k).toNat * 2 ^ k + v % 2 ^ k = v % 2 ^ (k + 1) := by
  rw [Nat.mod_pow_succ, Nat.toNat_testBit]
  ring

theorem read_writeMsbFirst (v : Nat) (ps : List Nat) (raw : List Nat) (hnd : ps.Nodup)
    (hfit : ∀ p ∈ ps, p < 8 * raw.length) :
    readMsbFirst (writeMsbFirst v ps raw) 0 ps = v % 2 ^ ps.length := by
  induction ps generalizing raw with
  | nil => simp [readMsbFirst, Nat.mod_one]
  | cons p ps ih =>
    rw [List.nodup_cons] at hnd
    have hp : p < 8 * raw.length := hfit p (List.mem_cons_self _ _)
    simp only [writeMsbFirst, readMsbFirst, List.length_cons]
    rw [readMsbFirst_acc, getBit_writeMsbFirst_of_not_mem _ _ _ _ hnd.1,
      getBit_setBit_same _ _ _ hp,
      ih (setBit raw p (v.testBit ps.length)) hnd.2
        (fun q hq => by rw [length_setBit]; exact hfit q (List.mem_cons_of_mem _ hq))]
    simp only [Nat.mul_zero, Nat.zero_add]
    exact testBit_toNat_mul v ps.length

theorem length_fieldBits (le : Bool) (p n : Nat) : (fieldBits le p n).length = n := by
  induction n generalizing p with
  | zero => rfl
  | succ n ih => simp only [fieldBits, List.length_cons, ih]

theorem fieldBits_little (p n : Nat) : fieldBits true p n = List.range' p n := by
  induction n generalizing p with
  | zero => rfl
  | succ n ih => simp [fieldBits, nextBit, ih, List.range'_succ]

theorem mirrorBit_mirrorBit (p : Nat) : mirrorBit (mirrorBit p) = p := by
  unfold mirrorBit
  omega

theorem nextBit_big (p : Nat) : nextBit false p = mirrorBit (mirrorBit p + 1) := by
  unfold nextBit mirrorBit
  simp only [Bool.false_eq_true, if_false]
  split_ifs with h <;> omega

theorem fieldBits_big (p n : Nat) :
    fieldBits false p n = (List.range' (mirrorBit p) n).map mirrorBit := by
  induction n generalizing p with
  | zero => rfl
  | succ n ih =>
    simp only [fieldBits, List.range'_succ, List.map_cons, mirrorBit_mirrorBit]
    rw [ih, nextBit_big, mirrorBit_mirrorBit]

theorem nodup_fieldBits (le : Bool) (p n : Nat) : (fieldBits le p n).Nodup := by
  cases le
  · rw [fieldBits_big]
    refine List.Nodup.map ?_ (List.nodup_range' _ _)
    intro a b hab
    have := congrArg mirrorBit hab
    simpa [mirrorBit_mirrorBit] using this
  · rw [fieldBits_little]
    exact List.nodup_range' _ _

theorem fieldFits_iff (le : Bool) (start n : Nat) (raw : List Nat) :
    fieldFits le start n raw = true ↔ ∀ p ∈ fieldBits le start n, p < 8 * raw.length := by
  unfold fieldFits
  simp [List.all_eq_true]

theorem fieldFits_length (le : Bool) (start n : Nat) (raw raw2 : List Nat)
    (h : raw2.length = raw.length) : fieldFits le start n raw2 = fieldFits le start n raw := by
  unfold fieldFits
  rw [h]


/-- C8: round-trip law of the bit codec.  For every bit length `n` in `[1, 64]`, both
endianness modes, every start bit for which the field fits in the buffer, every initial
buffer content and every `v < 2^n`, `UnsignedToRaw` yields a buffer from which
`RawToUnsigned` with the same layout extracts `v`. -/
theorem C8_round_trip (little_endian : Bool) (start n v : Nat) (raw : List Nat)
    (hn1 : 1 ≤ n) (hn64 : n ≤ 64) (hfit : fieldFits little_endian start n raw = true)
    (hv : v < 2 ^ n) :
    ∃ raw2, UnsignedToRaw little_endian start n v raw = some raw2 ∧
      RawToUnsigned little_endian start n raw2 = some v := by
  have hlen : ¬ (n = 0 ∨ 64 < n) := by omega
  have hall := (fieldFits_iff little_endian start n raw).1 hfit
  have hnd := nodup_fieldBits little_endian start n
  cases little_endian
  · refine ⟨writeMsbFirst v (fieldBits false start n) raw, ?_, ?_⟩
    · simp [UnsignedToRaw, hlen, hfit]
    · have hfit2 : fieldFits false start n (writeMsbFirst v (fieldBits false start n) raw)
          = true := by
        rw [fieldFits_length _ _ _ _ _ (length_writeMsbFirst _ _ _)]; exact hfit
      simp only [RawToUnsigned, hlen, hfit2, if_false, Bool.not_true, Bool.false_eq_true]
      rw [read_writeMsbFirst v _ raw hnd hall, length_fieldBits, Nat.mod_eq_of_lt hv]
  · refine ⟨writeLsbFirst v (fieldBits true start n) raw, ?_, ?_⟩
    · simp [UnsignedToRaw, hlen, hfit]
    · have hfit2 : fieldFits true start n (writeLsbFirst v (fieldBits true start n) raw)
          = true := by
        rw [fieldFits_length _ _ _ _ _ (length_writeLsbFirst _ _ _)]; exact hfit
      simp only [RawToUnsigned, hlen, hfit2, if_false, Bool.not_true, Bool.false_eq_true,
        if_true]
      rw [read_writeLsbFirst _ v raw hnd hall, length_fieldBits, Nat.mod_eq_of_lt hv]

/-- Witness of C8: the 12-bit value `0xABC` packed big-endian at start bit 3 into the
buffer `F0 0F 55`, and the 64-bit value `2^64 - 1` packed little-endian at start bit 4 into
a buffer of nine bytes. -/
theorem C8_round_trip_witness :
    (∃ raw2, UnsignedToRaw false 3 12 2748 [0xF0, 0x0F, 0x55] = some raw2 ∧
      RawToUnsigned false 3 12 raw2 = some 2748) ∧
    (∃ raw2, UnsignedToRaw true 4 64 18446744073709551615 [0, 0, 0, 0, 0, 0, 0, 0, 0] =
        some raw2 ∧
      RawToUnsigned true 4 64 raw2 = some 18446744073709551615) :=
  ⟨C8_round_trip false 3 12 2748 [0xF0, 0x0F, 0x55] (by decide) (by decide) (by decide)
      (by decide),
   C8_round_trip true 4 64 18446744073709551615 [0, 0, 0, 0, 0, 0, 0, 0, 0] (by decide)
      (by decide) (by decide) (by decide)⟩

/-! ## Multiplexing -/

/-- C9: a multiplex mismatch is a no-op.  For a signal with `Mux() = Multiplexed` and
selector `MuxValue()`, `ParseMessage` on a frame whose multiplexor field decodes to a
different value leaves the sample counter, the cached `SignalValue` (its validity
included), the sample time and the sample CAN id unchanged, and notifies no observer. -/
theorem C9_mux_mismatch_noop {F : Type} (ops : FloatOps F) (multiplexor s : Signal F)
    (message : List Nat) (ns1970 can_id m : Nat)
    (hmux : s.Mux = MuxType.Multiplexed)
    (hsel : RawToUnsigned multiplexor.little_endian_ multiplexor.bit_start_
      multiplexor.bit_length_ message = some m)
    (hne : Int.ofNat m ≠ s.MuxValue) :
    (ParseMessage ops multiplexor message ns1970 can_id s).1.SampleCounter = s.SampleCounter ∧
    (ParseMessage ops multiplexor message ns1970 can_id s).1.channel_value_ =
      s.channel_value_ ∧
    (ParseMessage ops multiplexor message ns1970 can_id s).1.sample_time_ = s.sample_time_ ∧
    (ParseMessage ops multiplexor message ns1970 can_id s).1.sample_can_id_ =
      s.sample_can_id_ ∧
    (ParseMessage ops multiplexor message ns1970 can_id s).2 = [] := by
  have happ : s.applicable (some m) = false := by
    unfold Signal.applicable
    rw [hmux]
    exact decide_eq_false hne
  have h : ParseMessage ops multiplexor message ns1970 can_id s = (s, []) := by
    unfold ParseMessage
    simp only [hsel, happ, Bool.not_false, if_true]
  rw [h]
  exact ⟨rfl, rfl, rfl, rfl, rfl⟩

/-- Witness of C9: a `Multiplexed` unsigned signal with selector 3 in bits 8..15, the
multiplexor in bits 0..7, and a frame whose multiplexor field holds 2. -/
theorem C9_mux_mismatch_noop_witness :
    (ParseMessage ieee
        { sampleSignal SignalDataType.UnsignedData 8 (SignalValue.init ieee) with
          mux_type_ := MuxType.Multiplexor }
        [2, 0x14, 0, 0, 0, 0, 0, 0] 1000 291
        { sampleSignal SignalDataType.UnsignedData 8
            { valid := true, signed_value := 0, unsigned_value := 7,
              float_value := ieee.zero, array_value := [] } with
          mux_type_ := MuxType.Multiplexed, mux_value_ := 3, bit_start_ := 8,
          sample_counter_ := 5, sample_time_ := 900, sample_can_id_ := 291 }).1.SampleCounter
      = 5 ∧
    (ParseMessage ieee
        { sampleSignal SignalDataType.UnsignedData 8 (SignalValue.init ieee) with
          mux_type_ := MuxType.Multiplexor }
        [2, 0x14, 0, 0, 0, 0, 0, 0] 1000 291
        { sampleSignal SignalDataType.UnsignedData 8
            { valid := true, signed_value := 0, unsigned_value := 7,
              float_value := ieee.zero, array_value := [] } with
          mux_type_ := MuxType.Multiplexed, mux_value_ := 3, bit_start_ := 8,
          sample_counter_ := 5, sample_time_ := 900, sample_can_id_ := 291 }).1.sample_time_
      = 900 :=
  have h := C9_mux_mismatch_noop ieee
    { sampleSignal SignalDataType.UnsignedData 8 (SignalValue.init ieee) with
      mux_type_ := MuxType.Multiplexor }
    { sampleSignal SignalDataType.UnsignedData 8
        { valid := true, signed_value := 0, unsigned_value := 7,
          float_value := ieee.zero, array_value := [] } with
      mux_type_ := MuxType.Multiplexed, mux_value_ := 3, bit_start_ := 8,
      sample_counter_ := 5, sample_time_ := 900, sample_can_id_ := 291 }
    [2, 0x14, 0, 0, 0, 0, 0, 0] 1000 291 2 rfl (by decide) (by decide)
  ⟨h.1, h.2.2.1⟩

/-- C10: for every `ExtendedMux` and every value `v`, `InRange(v)` is true exactly when
some pair `(lo, hi)` of `range_list` has `lo <= v <= hi`, both bounds inclusive; with
`range_list = [(2,4)]`, `InRange(4)` is true and `InRange(5)` is false. -/
theorem C10_in_range_iff :
    (∀ (m : ExtendedMux) (v : Nat),
      m.InRange v = true ↔ ∃ r ∈ m.range_list, r.1 ≤ v ∧ v ≤ r.2) ∧
    ExtendedMux.InRange { multiplexor := "M", range_list := [(2, 4)] } 4 = true ∧
    ExtendedMux.InRange { multiplexor := "M", range_list := [(2, 4)] } 5 = false := by
  refine ⟨?_, by decide, by decide⟩
  intro m v
  unfold ExtendedMux.InRange
  induction m.range_list with
  | nil => simp [rangeMatch]
  | cons r rest ih =>
    simp only [rangeMatch, List.mem_cons, exists_eq_or_imp]
    by_cases hr : r.1 ≤ v ∧ v ≤ r.2
    · simp [hr]
    · rw [if_neg hr, ih]
      simp [hr]

/-! ## The bit codec: packing is confined to the field -/

theorem mem_fieldBits_little (start n q : Nat) :
    q ∈ fieldBits true start n ↔ start ≤ q ∧ q < start + n := by
  rw [fieldBits_little, List.mem_range'_1]

/-- The bits outside the field after a pack that succeeds. -/
theorem UnsignedToRaw_confined (little_endian : Bool) (start n value : Nat) (raw : List Nat)
    (hn1 : 1 ≤ n) (hn64 : n ≤ 64) (hfit : fieldFits little_endian start n raw = true) :
    ∃ raw2, UnsignedToRaw little_endian start n value raw = some raw2 ∧
      raw2.length = raw.length ∧
      ∀ q, q ∉ fieldBits little_endian start n → getBit raw2 q = getBit raw q := by
  have hlen : ¬ (n = 0 ∨ 64 < n) := by omega
  cases little_endian
  · refine ⟨writeMsbFirst value (fieldBits false start n) raw, ?_, ?_, ?_⟩
    · simp [UnsignedToRaw, hlen, hfit]
    · exact length_writeMsbFirst _ _ _
    · intro q hq
      exact getBit_writeMsbFirst_of_not_mem _ _ _ _ hq
  · refine ⟨writeLsbFirst value (fieldBits true start n) raw, ?_, ?_, ?_⟩
    · simp [UnsignedToRaw, hlen, hfit]
    · exact length_writeLsbFirst _ _ _
    · intro q hq
      exact getBit_writeLsbFirst_of_not_mem _ _ _ _ hq

/-- C11: packing is a read-modify-write confined to the field.  For every buffer,
endianness, start bit and bit length `n` in `[1, 64]` for which the field fits, and every
value, `UnsignedToRaw` and `SignedToRaw` yield a buffer of the same length in which every
bit that does not belong to the field is unchanged; for a little-endian field these are the
bits outside `[start, start + n)`. -/
theorem C11_pack_confined (little_endian : Bool) (start n : Nat) (raw : List Nat)
    (hn1 : 1 ≤ n) (hn64 : n ≤ 64) (hfit : fieldFits little_endian start n raw = true) :
    (∀ value : Nat, ∃ raw2, UnsignedToRaw little_endian start n value raw = some raw2 ∧
      raw2.length = raw.length ∧
      (∀ q, q ∉ fieldBits little_endian start n → getBit raw2 q = getBit raw q) ∧
      (little_endian = true → ∀ q, q < start ∨ start + n ≤ q → getBit raw2 q = getBit raw q)) ∧
    (∀ value : Int, ∃ raw2, SignedToRaw little_endian start n value raw = some raw2 ∧
      raw2.length = raw.length ∧
      (∀ q, q ∉ fieldBits little_endian start n → getBit raw2 q = getBit raw q) ∧
      (little_endian = true → ∀ q, q < start ∨ start + n ≤ q → getBit raw2 q = getBit raw q)) := by
  have key : ∀ value : Nat, ∃ raw2,
      UnsignedToRaw little_endian start n value raw = some raw2 ∧
      raw2.length = raw.length ∧
      (∀ q, q ∉ fieldBits little_endian start n → getBit raw2 q = getBit raw q) ∧
      (little_endian = true →
        ∀ q, q < start ∨ start + n ≤ q → getBit raw2 q = getBit raw q) := by
    intro value
    obtain ⟨raw2, h1, h2, h3⟩ :=
      UnsignedToRaw_confined little_endian start n value raw hn1 hn64 hfit
    refine ⟨raw2, h1, h2, h3, ?_⟩
    intro hle q hq
    apply h3
    rw [hle, mem_fieldBits_little]
    omega
  exact ⟨key, fun value => key _⟩

/-- Witness of C11: the 12-bit value `0xABC` packed big-endian at start bit 3 into the
buffer `F0 0F 55`. -/
theorem C11_pack_confined_witness :
    (∀ value : Nat, ∃ raw2, UnsignedToRaw false 3 12 value [0xF0, 0x0F, 0x55] = some raw2 ∧
      raw2.length = 3 ∧
      (∀ q, q ∉ fieldBits false 3 12 → getBit raw2 q = getBit [0xF0, 0x0F, 0x55] q) ∧
      (false = true →
        ∀ q, q < 3 ∨ 3 + 12 ≤ q → getBit raw2 q = getBit [0xF0, 0x0F, 0x55] q)) ∧
    UnsignedToRaw false 3 12 2748 [0xF0, 0x0F, 0x55] = some [0xFA, 0xBC, 0x55] ∧
    SignedToRaw true 4 8 (-2) [0x0F, 0xF0, 0x55] = some [0xEF, 0xFF, 0x55] :=
  ⟨(C11_pack_confined false 3 12 [0xF0, 0x0F, 0x55] (by decide) (by decide) (by decide)).1,
    by decide, by decide⟩

/-! ## Enumeration labels, clearing and the sample counter -/

theorem enumFind_of_mem (table : List (Int × String)) (k : Int) (label : String)
    (hnd : (table.map Prod.fst).Nodup) (hmem : (k, label) ∈ table) :
    enumFind table k = some label := by
  induction table with
  | nil => simp at hmem
  | cons entry rest ih =>
    simp only [List.map_cons, List.nodup_cons] at hnd
    simp only [enumFind]
    rcases List.mem_cons.1 hmem with h | h
    · subst h
      simp
    · have hne : entry.1 ≠ k := by
        intro he
        apply hnd.1
        rw [he]
        exact List.mem_map.2 ⟨(k, label), h, rfl⟩
      rw [if_neg hne]
      exact ih hnd.2 h

theorem enumFind_of_not_key (table : List (Int × String)) (k : Int)
    (hk : k ∉ table.map Prod.fst) : enumFind table k = none := by
  induction table with
  | nil => rfl
  | cons entry rest ih =>
    simp only [List.map_cons, List.mem_cons, not_or] at hk
    simp only [enumFind]
    rw [if_neg (fun h => hk.1 h.symm)]
    exact ih hk.2

/-- C12: for every enumeration table (a map, its keys are distinct) and every integer key
`k`, `GetEnumString(k)` returns the label stored under `k` when `k` is a key of the table
and the explicit empty label when it is not. -/
theorem C12_enum_string {F : Type} (s : Signal F) (k : Int)
    (hnd : (s.enum_list_.map Prod.fst).Nodup) :
    (∀ label, (k, label) ∈ s.enum_list_ → s.GetEnumString k = label) ∧
    (k ∉ s.enum_list_.map Prod.fst → s.GetEnumString k = "") := by
  constructor
  · intro label hmem
    unfold Signal.GetEnumString
    rw [enumFind_of_mem _ _ _ hnd hmem]
  · intro hk
    unfold Signal.GetEnumString
    rw [enumFind_of_not_key _ _ hk]

/-- Witness of C12: for the table `1 -> A, 2 -> B`, `GetEnumString(1)` is `A` and
`GetEnumString(3)` is the empty label. -/
theorem C12_enum_string_witness :
    Signal.GetEnumString { Signal.init ieee with enum_list_ := [(1, "A"), (2, "B")] } 1 = "A" ∧
    Signal.GetEnumString { Signal.init ieee with enum_list_ := [(1, "A"), (2, "B")] } 3 = "" :=
  ⟨(C12_enum_string { Signal.init ieee with enum_list_ := [(1, "A"), (2, "B")] } 1
      (by decide)).1 "A" (by decide),
   (C12_enum_string { Signal.init ieee with enum_list_ := [(1, "A"), (2, "B")] } 3
      (by decide)).2 (by decide)⟩

/-- C13: for every `SignalValue`, `Clear()` yields `valid = false`, `signed_value = 0`,
`unsigned_value = 0`, `float_value = 0` and an empty `array_value`, which is exactly the
default-constructed `SignalValue`; hence `Clear` is idempotent. -/
theorem C13_clear_is_default {F : Type} (ops : FloatOps F) (v : SignalValue F) :
    (SignalValue.Clear ops v).valid = false ∧
    (SignalValue.Clear ops v).signed_value = 0 ∧
    (SignalValue.Clear ops v).unsigned_value = 0 ∧
    (SignalValue.Clear ops v).float_value = ops.zero ∧
    (SignalValue.Clear ops v).array_value = [] ∧
    SignalValue.Clear ops v = SignalValue.init ops ∧
    SignalValue.Clear ops (SignalValue.Clear ops v) = SignalValue.Clear ops v :=
  ⟨rfl, rfl, rfl, rfl, rfl, rfl, rfl⟩

/-- C14: when the sample counter is below the maximum of `size_t`, `StepSampleCounter`
makes `SampleCounter()` exactly one greater; for every state `ResetSampleCounter` makes it
0; both leave every other field (cached `SignalValue`, external validity flag, sample time,
sample CAN id, layout and scaling) unchanged. -/
theorem C14_sample_counter {F : Type} (s : Signal F) :
    (s.SampleCounter < 2 ^ 64 - 1 →
      s.StepSampleCounter.SampleCounter = s.SampleCounter + 1) ∧
    s.ResetSampleCounter.SampleCounter = 0 ∧
    s.StepSampleCounter = { s with sample_counter_ := s.StepSampleCounter.SampleCounter } ∧
    s.ResetSampleCounter = { s with sample_counter_ := 0 } ∧
    (s.StepSampleCounter.channel_value_ = s.channel_value_ ∧
      s.StepSampleCounter.Valid = s.Valid ∧
      s.StepSampleCounter.sample_time_ = s.sample_time_ ∧
      s.StepSampleCounter.sample_can_id_ = s.sample_can_id_ ∧
      s.StepSampleCounter.bit_start_ = s.bit_start_ ∧
      s.StepSampleCounter.bit_length_ = s.bit_length_ ∧
      s.StepSampleCounter.little_endian_ = s.little_endian_ ∧
      s.StepSampleCounter.data_type_ = s.data_type_ ∧
      s.StepSampleCounter.scale_ = s.scale_ ∧
      s.StepSampleCounter.offset_ = s.offset_) ∧
    (s.ResetSampleCounter.channel_value_ = s.channel_value_ ∧
      s.ResetSampleCounter.Valid = s.Valid ∧
      s.ResetSampleCounter.sample_time_ = s.sample_time_ ∧
      s.ResetSampleCounter.sample_can_id_ = s.sample_can_id_ ∧
      s.ResetSampleCounter.bit_start_ = s.bit_start_ ∧
      s.ResetSampleCounter.bit_length_ = s.bit_length_ ∧
      s.ResetSampleCounter.little_endian_ = s.little_endian_ ∧
      s.ResetSampleCounter.data_type_ = s.data_type_ ∧
      s.ResetSampleCounter.scale_ = s.scale_ ∧
      s.ResetSampleCounter.offset_ = s.offset_) := by
  refine ⟨?_, rfl, rfl, rfl, ⟨rfl, rfl, rfl, rfl, rfl, rfl, rfl, rfl, rfl, rfl⟩,
    ⟨rfl, rfl, rfl, rfl, rfl, rfl, rfl, rfl, rfl, rfl⟩⟩
  intro hlt
  unfold Signal.SampleCounter at hlt
  show (s.sample_counter_ + 1) % 2 ^ 64 = s.sample_counter_ + 1
  apply Nat.mod_eq_of_lt
  omega

/-- Witness of C14: a signal whose sample counter is 5. -/
theorem C14_sample_counter_witness :
    Signal.SampleCounter
        (Signal.StepSampleCounter { Signal.init ieee with sample_counter_ := 5 }) = 5 + 1 ∧
    Signal.SampleCounter
        (Signal.ResetSampleCounter { Signal.init ieee with sample_counter_ := 5 }) = 0 :=
  ⟨(C14_sample_counter { Signal.init ieee with sample_counter_ := 5 }).1 (by decide),
   (C14_sample_counter { Signal.init ieee with sample_counter_ := 5 }).2.1⟩

/-! ## What a read depends on -/

/-- `ChannelValue` does not read the scale, the offset or the enumeration table. -/
theorem ChannelValue_scaling {F : Type} (ops : FloatOps F) (T : NumType) (s : Signal F)
    (scale offset : F) (table : List (Int × String)) :
    ChannelValue ops T { s with scale_ := scale, offset_ := offset, enum_list_ := table } =
      ChannelValue ops T s := rfl

/-- C15: `ChannelValue<T>` reads only the variant selected by the data type.  Two signal
states that agree on data type, bit length, both validity flags and the selected variant
(`signed_value` for `SignedData`, `unsigned_value` for `UnsignedData`, `float_value` for
`FloatData` and `DoubleData`) give the same flag and the same output, whatever the other
variants and `array_value` hold. -/
theorem C15_selected_variant_only {F : Type} (ops : FloatOps F) (T : NumType)
    (s t : Signal F) (hd : s.data_type_ = t.data_type_) (hl : s.bit_length_ = t.bit_length_)
    (hv : s.Valid = t.Valid) (hc : s.channel_value_.valid = t.channel_value_.valid)
    (hsel : match s.data_type_ with
      | SignalDataType.SignedData =>
        s.channel_value_.signed_value = t.channel_value_.signed_value
      | SignalDataType.UnsignedData =>
        s.channel_value_.unsigned_value = t.channel_value_.unsigned_value
      | SignalDataType.FloatData =>
        s.channel_value_.float_value = t.channel_value_.float_value
      | SignalDataType.DoubleData =>
        s.channel_value_.float_value = t.channel_value_.float_value) :
    ChannelValue ops T s = ChannelValue ops T t := by
  unfold ChannelValue
  rw [← hd, ← hl, ← hv, ← hc]
  cases hs : s.data_type_ <;> rw [hs] at hsel <;> simp only [] at hsel ⊢ <;> rw [hsel]

/-- Witness of C15: two valid unsigned 8-bit signals that both cache the unsigned value 20
and differ in `signed_value`, `float_value` and `array_value`. -/
theorem C15_selected_variant_only_witness :
    ChannelValue ieee (NumType.uint 16) (sampleSignal SignalDataType.UnsignedData 8
        { valid := true, signed_value := -7, unsigned_value := 20,
          float_value := F64.fin false 5 1, array_value := [1, 2, 3] }) =
      ChannelValue ieee (NumType.uint 16) (sampleSignal SignalDataType.UnsignedData 8
        { valid := true, signed_value := 0, unsigned_value := 20,
          float_value := ieee.zero, array_value := [] }) :=
  C15_selected_variant_only ieee (NumType.uint 16)
    (sampleSignal SignalDataType.UnsignedData 8
      { valid := true, signed_value := -7, unsigned_value := 20,
        float_value := F64.fin false 5 1, array_value := [1, 2, 3] })
    (sampleSignal SignalDataType.UnsignedData 8
      { valid := true, signed_value := 0, unsigned_value := 20,
        float_value := ieee.zero, array_value := [] })
    rfl rfl rfl rfl rfl

/-- C16: `ChannelValue<T>` returns true exactly when both validity flags are true and, for
an `UnsignedData` signal, the bit length is at most 64.  An `UnsignedData` signal of more
than 64 bits gives false with the zero of `T` whatever the flags are, and the bit length
has no influence on the result for `SignedData`, `FloatData` and `DoubleData` signals. -/
theorem C16_channel_value_flag {F : Type} (ops : FloatOps F) (T : NumType) (s : Signal F) :
    ((ChannelValue ops T s).1 = true ↔
      (s.channel_value_.valid = true ∧ s.Valid = true ∧
        (s.data_type_ = SignalDataType.UnsignedData → s.bit_length_ ≤ 64))) ∧
    (s.data_type_ = SignalDataType.UnsignedData → 64 < s.bit_length_ →
      ChannelValue ops T s = (false, zeroOf ops T)) ∧
    (s.data_type_ ≠ SignalDataType.UnsignedData →
      ∀ len : Nat, ChannelValue ops T { s with bit_length_ := len } = ChannelValue ops T s) := by
  refine ⟨?_, ?_, ?_⟩
  · rw [ChannelValue_flag]
    simp only [Bool.and_eq_true, decide_eq_true_eq, and_assoc]
  · intro hd hl
    unfold ChannelValue
    simp only [hd]
    rw [if_pos (by rw [bytes_gt_iff]; exact hl)]
  · intro hd len
    unfold ChannelValue
    cases hs : s.data_type_
    case UnsignedData => exact absurd hs hd
    all_goals rfl

/-- Witness of C16: a valid unsigned signal of 65 bits fails with zero although it caches
300, and a valid signed signal reads the same with bit length 0 and bit length 200. -/
theorem C16_channel_value_flag_witness :
    ChannelValue ieee (NumType.uint 64) (sampleSignal SignalDataType.UnsignedData 65
        { valid := true, signed_value := 0, unsigned_value := 300,
          float_value := ieee.zero, array_value := [] }) = (false, Value.int 0) ∧
    ChannelValue ieee (NumType.sint 64)
        { sampleSignal SignalDataType.SignedData 0
            { valid := true, signed_value := -9, unsigned_value := 0,
              float_value := ieee.zero, array_value := [] } with bit_length_ := 200 } =
      (true, Value.int (-9)) :=
  ⟨(C16_channel_value_flag ieee (NumType.uint 64)
      (sampleSignal SignalDataType.UnsignedData 65
        { valid := true, signed_value := 0, unsigned_value := 300,
          float_value := ieee.zero, array_value := [] })).2.1 rfl (by decide),
   ((C16_channel_value_flag ieee (NumType.sint 64)
      (sampleSignal SignalDataType.SignedData 0
        { valid := true, signed_value := -9, unsigned_value := 0,
          float_value := ieee.zero, array_value := [] })).2.2 (by decide) 200).trans
      (by decide)⟩

/-- C17: for every signal state the flag returned by `EngValue<T>` is the flag returned by
`ChannelValue` in the native type of the data type (`int64_t`, `uint64_t`, `float` or
`double`); it is the same for every requested type, scale, offset and enumeration
table. -/
theorem C17_eng_flag_is_channel_flag {F : Type} (ops : FloatOps F) (T : NumType)
    (s : Signal F) :
    (EngValue ops T s).1 = (ChannelValue ops (nativeType s.data_type_) s).1 ∧
    ∀ (U : NumType) (scale offset : F) (table : List (Int × String)),
      (EngValue ops U
          { s with scale_ := scale, offset_ := offset, enum_list_ := table }).1 =
        (EngValue ops T s).1 := by
  refine ⟨EngValue_flag ops T s, ?_⟩
  intro U scale offset table
  rw [EngValue_flag, EngValue_flag, ChannelValue_scaling]

end dbc
